import Mathlib

/-!
Verification of the condition compiler and record-access facade of
`src/database/database-service-single-instance.ts`.

The TypeScript source is shallowly embedded: JS strings become `String`,
JS arrays become `List`, the `QueryParams` union becomes the `Value`
inductive, and the in-place mutation of the `values` array is modelled by
explicit list-passing (each function returns the array as it stands after
the call).  JS numbers used as indices/counters are modelled as `Nat`.
-/

namespace DailyTools

/-- Embeds `type QueryParams = string | number | boolean | Date | null`
(line 3 of the source).  A `Date` is opaque; only its identity matters. -/
inductive Value where
  | str (s : String)
  | num (n : Int)
  | boolean (b : Bool)
  | date (d : Int)
  | null
deriving DecidableEq, Repr

/-- A condition's `value` field has TS type `QueryParams | QueryParams[]`
(line 18): either a scalar or an array of scalars.  The `values` array the
compiler pushes into is declared `QueryParams[]`, but the `IN` branch of
`buildWhereClause` pushes `condition.value` itself (line 216), so the
parameter list must be able to hold a whole array as one element; hence
parameter lists are `List CondValue` as well. -/
inductive CondValue where
  | scalar (v : Value)
  | arr (vs : List Value)
deriving DecidableEq, Repr

/-- Embeds `type WhereOperator` (line 14). -/
inductive WhereOperator where
  | eq | ne | gt | lt | ge | le | like | inOp | isNull | isNotNull
deriving DecidableEq, Repr

/-- The literal text of each operator, as written in the TS union type. -/
def WhereOperator.toSql : WhereOperator → String
  | .eq => "="
  | .ne => "!="
  | .gt => ">"
  | .lt => "<"
  | .ge => ">="
  | .le => "<="
  | .like => "LIKE"
  | .inOp => "IN"
  | .isNull => "IS NULL"
  | .isNotNull => "IS NOT NULL"

/-- Embeds `'AND' | 'OR'` (lines 22, 27). -/
inductive Logic where
  | and | or
deriving DecidableEq, Repr

/-- The literal text of a logic connective. -/
def Logic.toSql : Logic → String
  | .and => "AND"
  | .or => "OR"

/-- Embeds `interface WhereCondition` (lines 15-19). -/
structure WhereCondition where
  field : String
  operator : WhereOperator
  value : CondValue
deriving DecidableEq, Repr

/-- Embeds the `WhereCondition | ConditionGroup` union that makes up
`ConditionGroup.conditions` (line 26).  A group node carries its `logic`
and its ordered children directly. -/
inductive ConditionItem where
  | cond (c : WhereCondition)
  | group (logic : Logic) (conditions : List ConditionItem)

/-- Embeds `interface ConditionGroup` (lines 25-28). -/
structure ConditionGroup where
  logic : Logic
  conditions : List ConditionItem

/-- View of a `ConditionGroup` as a child item of another group. -/
def ConditionGroup.toItem (g : ConditionGroup) : ConditionItem :=
  .group g.logic g.conditions

/-- Embeds `Array.prototype.join(sep)`: empty array gives `""`, a
singleton gives its element, otherwise elements interleaved with `sep`. -/
def joinSep (sep : String) : List String → String
  | [] => ""
  | [s] => s
  | s :: rest => s ++ sep ++ joinSep sep rest

/-- Embeds the template `$${i}` producing a positional placeholder. -/
def placeholder (i : Nat) : String := "$" ++ Nat.repr i

/-- The placeholders `$start, $start+1, ..., $start+n-1` produced by the
`IN` branch's `map` over an `n`-element value array (lines 215-218). -/
def placeholderList (start n : Nat) : List String :=
  (List.range n).map (fun k => placeholder (start + k))

/-- Embeds the simple-condition arm of `buildWhereClause`'s loop (lines
209-223): given one leaf condition, the current `values` array and the
current `paramIndex`, returns the emitted clause fragment, the `values`
array after the pushes, and the updated `paramIndex`.

Faithful to the source, including its slip in the `IN` branch (lines
214-219): the `map` callback ignores its element argument and pushes
`condition.value` — the whole array — once per element, instead of the
element itself.  An `IN` condition whose value is not an array fails the
`Array.isArray` test and falls through to the generic `else` branch
(lines 220-223), emitting `<field> IN $N`. -/
def compileCond (c : WhereCondition) (values : List CondValue)
    (paramIndex : Nat) : String × List CondValue × Nat :=
  match c.operator, c.value with
  | .isNull, _ =>
    (c.field ++ " " ++ WhereOperator.isNull.toSql, values, paramIndex)
  | .isNotNull, _ =>
    (c.field ++ " " ++ WhereOperator.isNotNull.toSql, values, paramIndex)
  | .inOp, .arr xs =>
    (c.field ++ " IN (" ++ joinSep ", " (placeholderList paramIndex xs.length) ++ ")",
     values ++ List.replicate xs.length (CondValue.arr xs),
     paramIndex + xs.length)
  | op, v =>
    (c.field ++ " " ++ op.toSql ++ " " ++ placeholder paramIndex,
     values ++ [v],
     paramIndex + 1)

/-- Embeds the loop of `buildWhereClause` (lines 206-229): walks the
children of a group, returning the list of emitted clause fragments, the
`values` array after all pushes, and the final value of the local
`paramIndex` counter.

Faithful to the source, including its slip in the nested-group branch
(lines 224-228): the recursion is entered with the current `paramIndex`,
but the parent's counter is never advanced afterwards (`paramIndex` is a
by-value `number` argument and the recursive call returns only the clause
string), so the items following a nested group restart at the same
index. -/
def buildWhereItems : List ConditionItem → List CondValue → Nat →
    List String × List CondValue × Nat
  | [], values, paramIndex => ([], values, paramIndex)
  | .cond c :: rest, values, paramIndex =>
    let s := compileCond c values paramIndex
    let r := buildWhereItems rest s.2.1 s.2.2
    (s.1 :: r.1, r.2)
  | .group lg conds :: rest, values, paramIndex =>
    let inner := buildWhereItems conds values paramIndex
    let clause := "(" ++ joinSep (" " ++ lg.toSql ++ " ") inner.1 ++ ")"
    let r := buildWhereItems rest inner.2.1 paramIndex
    (clause :: r.1, r.2)

/-- Embeds `buildWhereClause` (lines 201-232): compiles a group by
compiling its children and joining the fragments with
`` ` ${group.logic} ` ``.  Returns the clause text and the `values` array
after the call (the TS method mutates `values` in place and returns only
the string; the returned Nat of `buildWhereItems` is dropped, exactly as
the TS local `paramIndex` dies at the end of the call). -/
def buildWhereClause (group : ConditionGroup) (values : List CondValue)
    (paramIndex : Nat) : String × List CondValue :=
  let r := buildWhereItems group.conditions values paramIndex
  (joinSep (" " ++ group.logic.toSql ++ " ") r.1, r.2.1)

/-- Embeds `type SortOrder = 'ASC' | 'DESC'` (line 6). -/
inductive SortOrder where
  | asc | desc
deriving DecidableEq, Repr

/-- The literal text of a sort order. -/
def SortOrder.toSql : SortOrder → String
  | .asc => "ASC"
  | .desc => "DESC"

/-- A SQL statement as handed to `query`: the text and the positional
parameter array. -/
structure SqlStatement where
  sql : String
  values : List CondValue
deriving DecidableEq, Repr

/-- Embeds the legacy equality-conditions loop of `findAllCustom` (lines
182-185): one `key = $i` fragment per entry of the conditions map, with
`paramIndex` incremented per entry.  The map is modelled as an ordered
association list (`Object.keys` enumerates insertion order). -/
def legacyWhereClauses : List (String × CondValue) → Nat → List String
  | [], _ => []
  | (k, _) :: rest, i => (k ++ " = " ++ placeholder i) :: legacyWhereClauses rest (i + 1)

/-- Embeds the `ORDER BY` part of `findAllCustom` (lines 190-195). -/
def sortSql (sortOptions : List (String × SortOrder)) : String :=
  if sortOptions.length > 0 then
    " ORDER BY " ++ joinSep ", " (sortOptions.map (fun p => p.1 ++ " " ++ p.2.toSql))
  else ""

/-- Embeds the statement construction of `findAllCustom` (lines 167-198):
base `SELECT`, then the `WHERE` part (nested `whereOptions` group if
present and non-empty, else the legacy equality map if non-empty, else
nothing), then the `ORDER BY` part.  Returns the statement that is passed
to `query` (the actual database round-trip is external). -/
def findAllCustomStmt (tableName : String)
    (conditions : List (String × CondValue))
    (sortOptions : List (String × SortOrder))
    (whereOptions : Option ConditionGroup) : SqlStatement :=
  let legacyPart : String × List CondValue :=
    if conditions.length > 0 then
      (" WHERE " ++ joinSep " AND " (legacyWhereClauses conditions 1),
       conditions.map Prod.snd)
    else ("", [])
  let wherePart : String × List CondValue :=
    match whereOptions with
    | some g =>
      if g.conditions.length > 0 then
        let r := buildWhereClause g [] 1
        (" WHERE " ++ r.1, r.2)
      else legacyPart
    | none => legacyPart
  ⟨"SELECT * FROM " ++ tableName ++ wherePart.1 ++ sortSql sortOptions,
   wherePart.2⟩

/-- Embeds `interface WhereOptions` (lines 20-23): a flat list of leaf
conditions plus a connective. -/
structure WhereOptions where
  conditions : List WhereCondition
  logic : Logic

/-- TypeScript structural typing lets a `WhereOptions` be passed where a
`ConditionGroup` is expected (as `findAllWithPagination` does at line 289
when it forwards its `whereOptions` to `findAllCustom`): every leaf
becomes a child item of a group with the same connective. -/
def WhereOptions.toGroup (w : WhereOptions) : ConditionGroup :=
  ⟨w.logic, w.conditions.map ConditionItem.cond⟩

/-- Embeds the inline flat `WHERE` builder that `bulkUpdate` uses (lines
326-339); `findAllWithPagination`'s count query (lines 256-269) and
`bulkDelete` (lines 357-370) repeat the same code.  Unlike
`buildWhereClause`, its `IN` branch pushes each element `val` of the value
array (line 331). -/
def bulkUpdateWhereConds : List WhereCondition → List CondValue → Nat →
    List String × List CondValue × Nat
  | [], values, paramIndex => ([], values, paramIndex)
  | c :: rest, values, paramIndex =>
    match c.operator, c.value with
    | .isNull, _ =>
      let r := bulkUpdateWhereConds rest values paramIndex
      ((c.field ++ " " ++ WhereOperator.isNull.toSql) :: r.1, r.2)
    | .isNotNull, _ =>
      let r := bulkUpdateWhereConds rest values paramIndex
      ((c.field ++ " " ++ WhereOperator.isNotNull.toSql) :: r.1, r.2)
    | .inOp, .arr xs =>
      let clause :=
        c.field ++ " IN (" ++ joinSep ", " (placeholderList paramIndex xs.length) ++ ")"
      let r := bulkUpdateWhereConds rest
        (values ++ xs.map CondValue.scalar) (paramIndex + xs.length)
      (clause :: r.1, r.2)
    | op, v =>
      let clause := c.field ++ " " ++ op.toSql ++ " " ++ placeholder paramIndex
      let r := bulkUpdateWhereConds rest (values ++ [v]) (paramIndex + 1)
      (clause :: r.1, r.2)

/-- Embeds `interface PaginationOptions` (lines 9-12). -/
structure PaginationOptions where
  page : Nat
  limit : Nat

/-- Embeds node-postgres's `QueryResult` as far as the facade touches it:
the `command` string and the returned rows (row type left abstract). -/
structure QueryResultT (ρ : Type) where
  command : String
  rows : List ρ

/-- The `pagination` object returned by `findAllWithPagination`
(lines 294-299). -/
structure PaginationMeta where
  page : Nat
  limit : Nat
  totalItems : Nat
  totalPages : Nat
deriving DecidableEq, Repr

/-- The full return value of `findAllWithPagination` (lines 240-248). -/
structure PaginatedResult (ρ : Type) where
  data : QueryResultT ρ
  pagination : PaginationMeta

/-- Embeds `findAllWithPagination` (lines 235-301).  The database is the
oracle `db`, mapping an executed statement to its result; the count query
(lines 250-282) and the `parseInt` of its single row are abstracted to the
natural number `totalItems` it produced.  JS `Math.ceil(totalItems /
limit)` (line 283) is embedded as the rational ceiling (they agree
whenever `limit > 0`; at `limit = 0` JS produces `Infinity`, outside this
model).  The function returns the statement it executed for the data rows
(built by `findAllCustom`, line 289: no `LIMIT`/`OFFSET` is ever added to
it) together with its result object: per line 290 the
`` ` LIMIT ${limit} OFFSET ${offset}` `` text is appended to the `command`
field of the already-executed query result. -/
def findAllWithPagination {ρ : Type} (db : SqlStatement → QueryResultT ρ)
    (tableName : String) (paginationOptions : PaginationOptions)
    (conditions : List (String × CondValue))
    (sortOptions : List (String × SortOrder))
    (whereOptions : Option WhereOptions)
    (totalItems : Nat) : SqlStatement × PaginatedResult ρ :=
  let totalPages : Nat := Nat.ceil ((totalItems : ℚ) / (paginationOptions.limit : ℚ))
  let offset := (paginationOptions.page - 1) * paginationOptions.limit
  let dataStmt :=
    findAllCustomStmt tableName conditions sortOptions
      (whereOptions.map WhereOptions.toGroup)
  let res := db dataStmt
  (dataStmt,
   { data :=
      { command := res.command ++ " LIMIT " ++ Nat.repr paginationOptions.limit
          ++ " OFFSET " ++ Nat.repr offset
        rows := res.rows }
     pagination :=
      { page := paginationOptions.page
        limit := paginationOptions.limit
        totalItems := totalItems
        totalPages := totalPages } })

/-! ## Helper lemmas -/

/-- Number of positional-placeholder markers in a clause string: the count
of `$` characters (no construct of the compiler other than a placeholder
emits `$`). -/
def countDollar (s : String) : Nat := s.data.count '$'

theorem countDollar_append (a b : String) :
    countDollar (a ++ b) = countDollar a + countDollar b := by
  simp [countDollar, List.count_append]

theorem digitChar_ne_dollar (n : Nat) : Nat.digitChar n ≠ '$' := by
  rcases Nat.lt_or_ge n 16 with h | h
  · interval_cases n <;> decide
  · unfold Nat.digitChar
    iterate 16 rw [if_neg (by omega)]
    decide

theorem toDigitsCore_dollar (b fuel n : Nat) (ds : List Char)
    (h : '$' ∉ ds) : '$' ∉ Nat.toDigitsCore b fuel n ds := by
  induction fuel generalizing n ds with
  | zero => simpa [Nat.toDigitsCore] using h
  | succ fuel ih =>
    simp only [Nat.toDigitsCore]
    split
    · intro hmem
      rcases List.mem_cons.mp hmem with h1 | h1
      · exact digitChar_ne_dollar _ h1.symm
      · exact h h1
    · apply ih
      intro hmem
      rcases List.mem_cons.mp hmem with h1 | h1
      · exact digitChar_ne_dollar _ h1.symm
      · exact h h1

theorem countDollar_repr (n : Nat) : countDollar (Nat.repr n) = 0 := by
  have : '$' ∉ (Nat.repr n).data := by
    show '$' ∉ Nat.toDigitsCore 10 (n + 1) n []
    exact toDigitsCore_dollar 10 (n + 1) n [] (by simp)
  simp [countDollar, List.count_eq_zero_of_not_mem this]

theorem countDollar_placeholder (i : Nat) : countDollar (placeholder i) = 1 := by
  simp [placeholder, countDollar_append, countDollar_repr]
  decide

theorem countDollar_opSql (op : WhereOperator) : countDollar op.toSql = 0 := by
  cases op <;> decide

theorem countDollar_logicSep (lg : Logic) :
    countDollar (" " ++ lg.toSql ++ " ") = 0 := by
  cases lg <;> decide

theorem countDollar_joinSep (sep : String) (l : List String)
    (h : countDollar sep = 0) :
    countDollar (joinSep sep l) = (l.map countDollar).sum := by
  induction l with
  | nil => simp [joinSep, countDollar]
  | cons s rest ih =>
    cases rest with
    | nil => simp [joinSep]
    | cons t ts =>
      simp only [joinSep, countDollar_append, List.map_cons, List.sum_cons] at *
      omega

theorem countDollar_space : countDollar " " = 0 := by decide

theorem countDollar_inOpen : countDollar " IN (" = 0 := by decide

theorem countDollar_close : countDollar ")" = 0 := by decide

theorem countDollar_comma : countDollar ", " = 0 := by decide

theorem countDollar_open : countDollar "(" = 0 := by decide

theorem placeholderList_count (start n : Nat) :
    ((placeholderList start n).map countDollar).sum = n := by
  induction n with
  | zero => simp [placeholderList]
  | succ n ih =>
    rw [placeholderList, List.range_succ, List.map_append, List.map_append,
      List.sum_append]
    rw [placeholderList] at ih
    simp only [List.map_map] at ih ⊢
    simp [ih, countDollar_placeholder]

theorem compileCond_shift (c : WhereCondition) (vs ws : List CondValue) (idx : Nat) :
    (compileCond c (vs ++ ws) idx).1 = (compileCond c ws idx).1 ∧
    (compileCond c (vs ++ ws) idx).2.1 = vs ++ (compileCond c ws idx).2.1 ∧
    (compileCond c (vs ++ ws) idx).2.2 = (compileCond c ws idx).2.2 := by
  obtain ⟨f, op, v⟩ := c
  cases op <;> cases v <;> simp [compileCond]

theorem compileCond_count (c : WhereCondition) (values : List CondValue) (idx : Nat)
    (h : countDollar c.field = 0) :
    countDollar (compileCond c values idx).1 + values.length
      = (compileCond c values idx).2.1.length := by
  obtain ⟨f, op, v⟩ := c
  cases op <;> cases v <;>
    simp [compileCond, countDollar_append, h, countDollar_opSql,
      countDollar_joinSep, placeholderList_count, countDollar_placeholder,
      countDollar_space, countDollar_inOpen, countDollar_close,
      countDollar_comma] <;>
    omega

/-- The clause fragments and the final counter of `buildWhereItems` do not
depend on what is already in the `values` array, and the array only
grows: pre-existing elements pass through untouched as a front segment. -/
theorem bwi_shift (items : List ConditionItem) (ws : List CondValue) (idx : Nat) :
    ∀ vs : List CondValue,
      (buildWhereItems items (vs ++ ws) idx).1 = (buildWhereItems items ws idx).1 ∧
      (buildWhereItems items (vs ++ ws) idx).2.1
        = vs ++ (buildWhereItems items ws idx).2.1 ∧
      (buildWhereItems items (vs ++ ws) idx).2.2 = (buildWhereItems items ws idx).2.2 := by
  induction items, ws, idx using buildWhereItems.induct with
  | case1 values paramIndex => intro vs; simp [buildWhereItems]
  | case2 c rest values paramIndex s ih =>
    intro vs
    have hs := compileCond_shift c vs values paramIndex
    simp only [buildWhereItems]
    rw [hs.1, hs.2.1, hs.2.2]
    have hr := ih vs
    refine ⟨by rw [hr.1], ?_, by rw [hr.2.2]⟩
    rw [hr.2.1]
  | case3 lg conds rest values paramIndex inner ih1 ih2 =>
    intro vs
    simp only [buildWhereItems]
    have h1 := ih1 vs
    rw [h1.1, h1.2.1]
    have h2 := ih2 vs
    refine ⟨by rw [h2.1], ?_, by rw [h2.2.2]⟩
    rw [h2.2.1]

/-- All field names occurring in a list of condition items are free of the
placeholder marker character `$`. -/
def itemsClean : List ConditionItem → Bool
  | [] => true
  | .cond c :: rest => (countDollar c.field == 0) && itemsClean rest
  | .group _ conds :: rest => itemsClean conds && itemsClean rest

theorem bwi_count : ∀ (items : List ConditionItem) (values : List CondValue) (idx : Nat),
    itemsClean items = true →
    ((buildWhereItems items values idx).1.map countDollar).sum + values.length
      = (buildWhereItems items values idx).2.1.length := by
  intro items values idx
  induction items, values, idx using buildWhereItems.induct with
  | case1 values paramIndex => intro h; simp [buildWhereItems]
  | case2 c rest values paramIndex s ih =>
    intro h
    simp only [itemsClean, Bool.and_eq_true, beq_iff_eq] at h
    have hc := compileCond_count c values paramIndex h.1
    have hr := ih h.2
    unfold s at hr
    simp only [buildWhereItems, List.map_cons, List.sum_cons]
    omega
  | case3 lg conds rest values paramIndex inner ih1 ih2 =>
    intro h
    simp only [itemsClean, Bool.and_eq_true] at h
    have h1 := ih1 h.1
    have h2 := ih2 h.2
    unfold inner at h2
    simp only [buildWhereItems, List.map_cons, List.sum_cons, countDollar_append,
      countDollar_open, countDollar_close,
      countDollar_joinSep _ _ (countDollar_logicSep lg)]
    omega

/-! ## Claim theorems -/

/-- Claim C1: the claim states that placeholder indices are strictly
increasing left-to-right depth-first and that a parent continues from the
index a nested compilation reached.  The code does not do this: compiling
`{AND, [{AND, [a = 1]}, b = 2]}` from start index 1 emits
`(a = $1) AND b = $1` — the condition following the nested group reuses
`$1` instead of continuing with `$2` — while the parameter array receives
both values.  This theorem evaluates the compiler at that failing input
and records that the output differs from the strictly-increasing clause
the claim requires. -/
theorem claimC1_nested_index_reuse :
    buildWhereClause
      ⟨.and, [.group .and [.cond ⟨"a", .eq, .scalar (.num 1)⟩],
              .cond ⟨"b", .eq, .scalar (.num 2)⟩]⟩ [] 1
      = ("(a = $1) AND b = $1",
         [.scalar (.num 1), .scalar (.num 2)]) ∧
    (buildWhereClause
      ⟨.and, [.group .and [.cond ⟨"a", .eq, .scalar (.num 1)⟩],
              .cond ⟨"b", .eq, .scalar (.num 2)⟩]⟩ [] 1).1
      ≠ "(a = $1) AND b = $2" := by
  constructor
  · simp only [buildWhereClause, buildWhereItems, compileCond]
    decide
  · simp only [buildWhereClause, buildWhereItems, compileCond]
    decide

/-- Claim C2: the claim states that an `IN` leaf appends each element of
its value sequence, so that `role IN ["admin","manager"]` yields clause
`role IN ($1, $2)` with parameters `["admin","manager"]`.  In
`buildWhereClause` the `map` callback pushes `condition.value` — the whole
array — once per element, so the clause is as claimed but the parameter
array holds the two-element array twice.  The flat builder inlined in
`bulkUpdate` (also cited by the claim) pushes the elements correctly,
shown here for contrast. -/
theorem claimC2_in_pushes_whole_array :
    buildWhereClause
      ⟨.and, [.cond ⟨"role", .inOp, .arr [.str "admin", .str "manager"]⟩]⟩ [] 1
      = ("role IN ($1, $2)",
         [.arr [.str "admin", .str "manager"], .arr [.str "admin", .str "manager"]]) ∧
    (buildWhereClause
      ⟨.and, [.cond ⟨"role", .inOp, .arr [.str "admin", .str "manager"]⟩]⟩ [] 1).2
      ≠ [.scalar (.str "admin"), .scalar (.str "manager")] ∧
    bulkUpdateWhereConds [⟨"role", .inOp, .arr [.str "admin", .str "manager"]⟩] [] 1
      = (["role IN ($1, $2)"],
         [.scalar (.str "admin"), .scalar (.str "manager")], 3) := by
  refine ⟨?_, ?_, ?_⟩
  · simp only [buildWhereClause, buildWhereItems, compileCond]
    decide
  · simp only [buildWhereClause, buildWhereItems, compileCond]
    decide
  · decide

/-- Claim C3: the claim states that the two-level example tree compiles to
`(status = $1 AND age >= $2) OR (department = $3 AND experience >= $4)`.
Because the parent's `paramIndex` is not advanced after a nested group is
compiled, the second group restarts at `$1`, so the code actually emits
`(status = $1 AND age >= $2) OR (department = $1 AND experience >= $2)`
(the parameter array does match the claim). -/
theorem claimC3_example2_actual_output :
    buildWhereClause
      ⟨.or, [.group .and [.cond ⟨"status", .eq, .scalar (.str "active")⟩,
                          .cond ⟨"age", .ge, .scalar (.num 18)⟩],
             .group .and [.cond ⟨"department", .eq, .scalar (.str "IT")⟩,
                          .cond ⟨"experience", .ge, .scalar (.num 5)⟩]]⟩ [] 1
      = ("(status = $1 AND age >= $2) OR (department = $1 AND experience >= $2)",
         [.scalar (.str "active"), .scalar (.num 18),
          .scalar (.str "IT"), .scalar (.num 5)]) ∧
    (buildWhereClause
      ⟨.or, [.group .and [.cond ⟨"status", .eq, .scalar (.str "active")⟩,
                          .cond ⟨"age", .ge, .scalar (.num 18)⟩],
             .group .and [.cond ⟨"department", .eq, .scalar (.str "IT")⟩,
                          .cond ⟨"experience", .ge, .scalar (.num 5)⟩]]⟩ [] 1).1
      ≠ "(status = $1 AND age >= $2) OR (department = $3 AND experience >= $4)" := by
  constructor
  · simp only [buildWhereClause, buildWhereItems, compileCond]
    decide
  · simp only [buildWhereClause, buildWhereItems, compileCond]
    decide

/-- Claim C4 counterexample: the claim states that an `IN` condition with
a non-sequence value is rejected before any clause text is generated.
The compiler has no error path at all: at the concrete input
`{field: "role", operator: "IN", value: "admin"}` it silently produces the
clause `role IN $1` with the scalar appended to the parameters. -/
theorem claimC4_counterexample :
    buildWhereClause ⟨.and, [.cond ⟨"role", .inOp, .scalar (.str "admin")⟩]⟩ [] 1
      = ("role IN $1", [.scalar (.str "admin")]) := by
  simp only [buildWhereClause, buildWhereItems, compileCond]
  decide

/-- Claim C4 (amended): an `IN` condition whose value is not a sequence is
not rejected; it fails the `Array.isArray` test and falls through to the
generic operator branch, which allocates one placeholder, appends the
scalar value, and emits `<field> IN $N` — in every position and context. -/
theorem claimC4_in_nonsequence_falls_through :
    ∀ (f : String) (v : Value) (rest : List ConditionItem)
      (vs : List CondValue) (idx : Nat),
    buildWhereItems (.cond ⟨f, .inOp, .scalar v⟩ :: rest) vs idx
      = ((f ++ " IN " ++ placeholder idx)
           :: (buildWhereItems rest (vs ++ [.scalar v]) (idx + 1)).1,
         (buildWhereItems rest (vs ++ [.scalar v]) (idx + 1)).2) := by
  intro f v rest vs idx
  have e1 : (" " ++ ("IN" ++ " ") : String) = " IN " := rfl
  have h1 : f ++ " " ++ "IN" ++ " " = f ++ " IN " := by
    rw [String.append_assoc, String.append_assoc, e1]
  simp only [buildWhereItems, compileCond, WhereOperator.toSql]
  rw [h1]

/-- Claim C5: for every condition tree (whose field names do not contain
the `$` marker character) and every starting state, the number of
placeholder markers in the emitted clause text equals the number of
elements appended to the parameter array during the call. -/
theorem claimC5_placeholder_count (g : ConditionGroup) (values : List CondValue)
    (idx : Nat) (h : itemsClean g.conditions = true) :
    countDollar (buildWhereClause g values idx).1 + values.length
      = (buildWhereClause g values idx).2.length := by
  have hc := bwi_count g.conditions values idx h
  simp only [buildWhereClause]
  rw [countDollar_joinSep _ _ (countDollar_logicSep g.logic)]
  exact hc

/-- Witness for claim C5 at a concrete tree containing a plain leaf, a
nested group and an `IN` leaf. -/
theorem claimC5_witness :
    itemsClean [ConditionItem.cond ⟨"age", .ge, .scalar (.num 18)⟩,
                ConditionItem.group .or
                  [.cond ⟨"role", .inOp, .arr [.str "a", .str "b"]⟩]] = true ∧
    countDollar (buildWhereClause
        ⟨.and, [.cond ⟨"age", .ge, .scalar (.num 18)⟩,
                .group .or [.cond ⟨"role", .inOp, .arr [.str "a", .str "b"]⟩]]⟩
        [] 1).1 + ([] : List CondValue).length
      = (buildWhereClause
        ⟨.and, [.cond ⟨"age", .ge, .scalar (.num 18)⟩,
                .group .or [.cond ⟨"role", .inOp, .arr [.str "a", .str "b"]⟩]]⟩
        [] 1).2.length :=
  ⟨by simp only [itemsClean]; decide,
   claimC5_placeholder_count
     ⟨.and, [.cond ⟨"age", .ge, .scalar (.num 18)⟩,
             .group .or [.cond ⟨"role", .inOp, .arr [.str "a", .str "b"]⟩]]⟩
     [] 1 (by simp only [itemsClean]; decide)⟩

/-- Claim C6: a group with an empty `conditions` list compiles to the
empty clause with no parameters appended, and `findAllCustom` treats such
a group exactly as an absent `whereOptions` (with no legacy conditions and
no sorting the statement is the bare `SELECT`, without a `WHERE`). -/
theorem claimC6_empty_group :
    ∀ (lg : Logic) (vs : List CondValue) (idx : Nat)
      (table : String) (sorts : List (String × SortOrder)),
    buildWhereClause ⟨lg, []⟩ vs idx = ("", vs) ∧
    findAllCustomStmt table [] sorts (some ⟨lg, []⟩)
      = findAllCustomStmt table [] sorts none ∧
    findAllCustomStmt table [] [] (some ⟨lg, []⟩)
      = ⟨"SELECT * FROM " ++ table, []⟩ := by
  intro lg vs idx table sorts
  refine ⟨?_, rfl, ?_⟩
  · simp [buildWhereClause, buildWhereItems, joinSep]
  · simp [findAllCustomStmt, sortSql, String.append_empty]

/-- Claim C7: an `IS NULL` / `IS NOT NULL` leaf emits exactly
`<field> <operator>`, leaves the parameter array and the running index
unchanged in every context, and the concrete example compiles to
`deleted_at IS NULL` with zero parameters. -/
theorem claimC7_null_operators :
    ∀ (f : String) (v : CondValue) (rest : List ConditionItem)
      (vs : List CondValue) (idx : Nat),
    buildWhereItems (.cond ⟨f, .isNull, v⟩ :: rest) vs idx
      = ((f ++ " IS NULL") :: (buildWhereItems rest vs idx).1,
         (buildWhereItems rest vs idx).2) ∧
    buildWhereItems (.cond ⟨f, .isNotNull, v⟩ :: rest) vs idx
      = ((f ++ " IS NOT NULL") :: (buildWhereItems rest vs idx).1,
         (buildWhereItems rest vs idx).2) ∧
    buildWhereClause ⟨.and, [.cond ⟨"deleted_at", .isNull, .scalar .null⟩]⟩ [] 1
      = ("deleted_at IS NULL", []) := by
  intro f v rest vs idx
  have e1 : (" " ++ "IS NULL" : String) = " IS NULL" := rfl
  have e2 : (" " ++ "IS NOT NULL" : String) = " IS NOT NULL" := rfl
  have h1 : f ++ " " ++ "IS NULL" = f ++ " IS NULL" := by
    rw [String.append_assoc, e1]
  have h2 : f ++ " " ++ "IS NOT NULL" = f ++ " IS NOT NULL" := by
    rw [String.append_assoc, e2]
  refine ⟨?_, ?_, ?_⟩
  · simp only [buildWhereItems, compileCond, WhereOperator.toSql]
    rw [h1]
  · simp only [buildWhereItems, compileCond, WhereOperator.toSql]
    rw [h2]
  · simp only [buildWhereClause, buildWhereItems, compileCond]
    decide

/-- Claim C8: `findAllWithPagination` executes for its data rows exactly
the statement `findAllCustom` builds (which contains no `LIMIT`/`OFFSET`
part — the `` ` LIMIT ... OFFSET ...` `` text is appended only to the
`command` field of the already-executed result), returns that query's
rows unchanged, echoes `page` and `limit`, and reports as `totalPages` the
ceiling of `totalItems / limit` (characterised here as the least number of
`limit`-sized pages covering `totalItems`). -/
theorem claimC8_pagination {ρ : Type} (db : SqlStatement → QueryResultT ρ)
    (tableName : String) (pag : PaginationOptions)
    (conditions : List (String × CondValue))
    (sortOptions : List (String × SortOrder)) (whereOptions : Option WhereOptions)
    (totalItems : Nat) (hl : 0 < pag.limit) :
    (findAllWithPagination db tableName pag conditions sortOptions whereOptions
        totalItems).1
      = findAllCustomStmt tableName conditions sortOptions
          (whereOptions.map WhereOptions.toGroup) ∧
    (findAllWithPagination db tableName pag conditions sortOptions whereOptions
        totalItems).2.data.rows
      = (db (findAllCustomStmt tableName conditions sortOptions
          (whereOptions.map WhereOptions.toGroup))).rows ∧
    (findAllWithPagination db tableName pag conditions sortOptions whereOptions
        totalItems).2.data.command
      = (db (findAllCustomStmt tableName conditions sortOptions
          (whereOptions.map WhereOptions.toGroup))).command
        ++ " LIMIT " ++ Nat.repr pag.limit
        ++ " OFFSET " ++ Nat.repr ((pag.page - 1) * pag.limit) ∧
    (findAllWithPagination db tableName pag conditions sortOptions whereOptions
        totalItems).2.pagination.page = pag.page ∧
    (findAllWithPagination db tableName pag conditions sortOptions whereOptions
        totalItems).2.pagination.limit = pag.limit ∧
    (findAllWithPagination db tableName pag conditions sortOptions whereOptions
        totalItems).2.pagination.totalItems = totalItems ∧
    totalItems ≤ (findAllWithPagination db tableName pag conditions sortOptions
        whereOptions totalItems).2.pagination.totalPages * pag.limit ∧
    ∀ m : Nat, totalItems ≤ m * pag.limit →
      (findAllWithPagination db tableName pag conditions sortOptions whereOptions
        totalItems).2.pagination.totalPages ≤ m := by
  have hq : (0 : ℚ) < (pag.limit : ℚ) := by exact_mod_cast hl
  refine ⟨rfl, rfl, rfl, rfl, rfl, rfl, ?_, ?_⟩
  · have h1 : ((totalItems : ℚ) / (pag.limit : ℚ))
        ≤ (Nat.ceil ((totalItems : ℚ) / (pag.limit : ℚ)) : ℚ) := Nat.le_ceil _
    rw [div_le_iff₀ hq] at h1
    exact_mod_cast h1
  · intro m hm
    show Nat.ceil ((totalItems : ℚ) / (pag.limit : ℚ)) ≤ m
    rw [Nat.ceil_le, div_le_iff₀ hq]
    exact_mod_cast hm

/-- Witness for claim C8: with limit 10 and 25 total items the reported
page count covers all items. -/
theorem claimC8_witness :
    (0 : Nat) < 10 ∧
    25 ≤ (findAllWithPagination (fun _ => ⟨"SELECT", ([] : List Unit)⟩) "users"
      ⟨2, 10⟩ [] [] none 25).2.pagination.totalPages * 10 :=
  ⟨by decide,
   (claimC8_pagination (fun _ => ⟨"SELECT", ([] : List Unit)⟩) "users"
     ⟨2, 10⟩ [] [] none 25 (by decide)).2.2.2.2.2.2.1⟩

/-- Claim C9: `buildWhereClause` only appends to the `values` array —
whatever the array already holds passes through unchanged as a front
segment of the result, the appended tail being what a call on an empty
array produces — and the clause text does not depend on the pre-existing
contents (the input tree, being a pure value in this embedding, cannot be
modified). -/
theorem claimC9_values_append_only (g : ConditionGroup) (vs : List CondValue)
    (idx : Nat) :
    (buildWhereClause g vs idx).1 = (buildWhereClause g [] idx).1 ∧
    (buildWhereClause g vs idx).2 = vs ++ (buildWhereClause g [] idx).2 := by
  have h := bwi_shift g.conditions [] idx vs
  simp only [List.append_nil] at h
  simp only [buildWhereClause]
  exact ⟨by rw [h.1], by rw [h.2.1]⟩

/-- Claim C10: in `findAllCustom`, a supplied `whereOptions` group whose
`conditions` list is empty is ignored entirely — the statement built is
identical to the one built with no `whereOptions` at all, for every
legacy conditions map and sort options (so the `WHERE` clause comes from
the legacy map when that is non-empty and is absent otherwise). -/
theorem claimC10_empty_whereoptions_ignored :
    ∀ (table : String) (conds : List (String × CondValue))
      (sorts : List (String × SortOrder)) (lg : Logic),
    findAllCustomStmt table conds sorts (some ⟨lg, []⟩)
      = findAllCustomStmt table conds sorts none := by
  intro table conds sorts lg
  rfl

end DailyTools
